import Mathlib

/-!
Verification of the adaptive media-compression engine of this repository
(`compressPics.py` and `compressVids.py`), shallowly embedded in Lean 4.

Sizes in megabytes are modelled as exact rationals (`ℚ`); byte counts as
naturals.  The external encoders (Pillow's `Image.save`, ffmpeg) are
modelled as abstract size functions: `f : ℕ → ℕ` gives the encoded byte
length at a given integer quality, and `g : ℕ → ℕ → ℕ → ℕ` gives the
encoded byte length at a given quality and pixel dimensions.  The
filesystem is modelled as a presence map `String → Bool`.
-/

namespace Compress

/-! ### compressPics.py — helpers -/

/-- `get_size_mb` (compressPics.py line 86): byte count to megabytes. -/
def get_size_mb (n : ℕ) : ℚ := (n : ℚ) / (1024 * 1024)

/-- Python `int()` applied to a rational: truncation toward zero. -/
def truncQ (x : ℚ) : ℤ := if 0 ≤ x then ⌊x⌋ else ⌈x⌉

/-! ### compressPics.py — settings (lines 26-32) -/

def MAX_SIZE_MB : ℚ := 3 / 2
def MIN_SIZE_MB : ℚ := 1
def TARGET_RATIO : ℚ := 1 / 4

def SUPPORTED_FORMATS_pics : List String :=
  [".jpg", ".jpeg", ".png", ".bmp", ".gif", ".tiff"]

/-! ### compressPics.py — compress_to_target_size (lines 126-172)

The binary-search loop over qualities.  `f q` is the byte length of
`_save_image_bytes(img, img_format, q=q, exif_bytes=...)`.  State
`(low, high, best)` mirrors the Python locals `low`, `high` and the pair
`(best_bytes, best_quality)` (`best = none` iff `best_bytes is None`).
The `q = 0` guard reproduces Python's loop exit when `high` would become
`-1`: in both cases the loop returns the current best. -/
def qsearchLoop (f : ℕ → ℕ) (target : ℚ) (low high : ℕ) (best : Option (ℕ × ℕ)) :
    Option (ℕ × ℕ) :=
  if low ≤ high then
    let q := (low + high) / 2
    let data := f q
    if get_size_mb data ≤ target then
      qsearchLoop f target (q + 1) high (some (data, q))
    else
      if q = 0 then best else qsearchLoop f target low (q - 1) best
  else best
termination_by high + 1 - low
decreasing_by
  · omega
  · omega

/-- The binary-search phase of `compress_to_target_size` (lines 131-148):
quality bounds 30..95, starting with no best candidate. -/
def searchPhase (f : ℕ → ℕ) (target : ℚ) : Option (ℕ × ℕ) :=
  qsearchLoop f target 30 95 none

/-- Result of the downscaling phase: the returned byte buffer's length,
the dimensions `new_w`/`new_h` computed at the stopping step, and whether
the sub-2px forced save (line 158-159) produced the result. -/
structure DSResult where
  bytes : ℕ
  stopW : ℕ
  stopH : ℕ
  forced : Bool
deriving DecidableEq

/-- Measure argument for the downscaling loop: once the current scaled
width is still at least 200 pixels, multiplying the scale by a further
`19/20` strictly shrinks the truncated scaled width. -/
theorem truncQ_scale_lt (width : ℕ) (s : ℚ)
    (hw200 : 200 ≤ max 1 (truncQ ((width : ℚ) * s)).toNat) :
    (truncQ ((width : ℚ) * (s * (19 / 20)))).toNat < (truncQ ((width : ℚ) * s)).toNat := by
  have hw : 200 ≤ (truncQ ((width : ℚ) * s)).toNat := by omega
  have hx : (200 : ℚ) ≤ (width : ℚ) * s := by
    by_cases hpos : 0 ≤ (width : ℚ) * s
    · have e : truncQ ((width : ℚ) * s) = ⌊(width : ℚ) * s⌋ := if_pos hpos
      have h2 : (200 : ℤ) ≤ ⌊(width : ℚ) * s⌋ := by omega
      exact_mod_cast Int.le_floor.mp h2
    · exfalso
      have e : truncQ ((width : ℚ) * s) = ⌈(width : ℚ) * s⌉ := if_neg hpos
      have h2 : ⌈(width : ℚ) * s⌉ ≤ (0 : ℤ) :=
        Int.ceil_le.mpr (by exact_mod_cast le_of_not_le hpos)
      omega
  have hnext : (width : ℚ) * (s * (19 / 20)) ≤ (width : ℚ) * s - 10 := by nlinarith
  have hnn : (0 : ℚ) ≤ (width : ℚ) * (s * (19 / 20)) := by nlinarith
  have e1 : truncQ ((width : ℚ) * (s * (19 / 20))) = ⌊(width : ℚ) * (s * (19 / 20))⌋ :=
    if_pos hnn
  have e2 : truncQ ((width : ℚ) * s) = ⌊(width : ℚ) * s⌋ := if_pos (by linarith)
  have h3 : ⌊(width : ℚ) * (s * (19 / 20))⌋ ≤ ⌊(width : ℚ) * s - ((10 : ℤ) : ℚ)⌋ :=
    Int.floor_le_floor (by push_cast; linarith)
  rw [Int.floor_sub_int] at h3
  have h4 : (200 : ℤ) ≤ ⌊(width : ℚ) * s⌋ := Int.le_floor.mpr (by exact_mod_cast hx)
  omega

/-- The progressive downscaling loop of `compress_to_target_size`
(lines 151-171).  `g q w h` is the byte length of
`_save_image_bytes(resized, img_format, q=q, ...)` for an image resized
to `w × h`; `width`/`height` are the original dimensions, `s` the current
cumulative scale (initially `0.95`, multiplied by `0.95` each round), and
`cw`/`ch` the dimensions of `current_img` (used by the forced save). -/
def downscaleLoop (g : ℕ → ℕ → ℕ → ℕ) (q width height : ℕ) (target : ℚ)
    (s : ℚ) (cw ch : ℕ) : DSResult :=
  let new_w := max 1 (truncQ ((width : ℚ) * s)).toNat
  let new_h := max 1 (truncQ ((height : ℚ) * s)).toNat
  if new_w < 2 ∨ new_h < 2 then
    -- fallback: force save at best_quality even if huge
    ⟨g q cw ch, new_w, new_h, true⟩
  else
    let data := g q new_w new_h
    if get_size_mb data ≤ target ∨ new_w < 200 ∨ new_h < 200 then
      ⟨data, new_w, new_h, false⟩
    else
      downscaleLoop g q width height target (s * (19 / 20)) new_w new_h
termination_by (truncQ ((width : ℚ) * s)).toNat
decreasing_by
  rename_i hbig
  rw [not_or, not_or] at hbig
  exact truncQ_scale_lt width s (by omega)

/-- `compress_to_target_size` (compressPics.py lines 126-172).  Returns the
final candidate: the binary-search result when it found a quality fitting
under `target`, otherwise the downscaling result encoded at the default
`best_quality = 85` (which is never updated when the search sets no best).
The extra `DSResult` fields are ghost data recording where the loop
stopped; the returned byte buffer is the `.bytes` field. -/
def compress_to_target_size (f : ℕ → ℕ) (g : ℕ → ℕ → ℕ → ℕ)
    (width height : ℕ) (target : ℚ) : DSResult :=
  match searchPhase f target with
  | some (data, _) => ⟨data, width, height, false⟩
  | none => downscaleLoop g 85 width height target (19 / 20) width height

/-! ### compressPics.py — compress_image (lines 175-218) -/

/-- The per-file target: `min(MAX_SIZE_MB, original_size * TARGET_RATIO)`
(line 184). -/
def target_mb (original_size : ℚ) : ℚ := min MAX_SIZE_MB (original_size * TARGET_RATIO)

/-- The skip test of `compress_image` (line 179): small files are returned
untouched before any encoding work. -/
def compress_image_skips (original_size : ℚ) : Bool := original_size < MIN_SIZE_MB

/-! ### Filesystem model

A filesystem is a presence map `String → Bool`.  `os.replace` and
`os.remove` act as below; `write_file` models creating/overwriting a file. -/

def write_file (dst : String) (fs : String → Bool) : String → Bool :=
  fun p => if p = dst then true else fs p

def os_replace (src dst : String) (fs : String → Bool) : String → Bool :=
  fun p => if p = dst then fs src else if p = src then false else fs p

def os_remove (victim : String) (fs : String → Bool) : String → Bool :=
  fun p => if p = victim then false else fs p

/-- The write-then-replace tail of `compress_image` (lines 209-212) with
its surrounding `try/except` (lines 177, 217-218).  The temp file
`path + ".tmp"` is written, then `os.replace(temp_path, path)` runs; if
the replace raises, control reaches the handler, which only prints — it
removes nothing.  Returns the final filesystem and a success flag. -/
def compress_image_fs (path : String) (replace_raises : Bool) (fs : String → Bool) :
    (String → Bool) × Bool :=
  let temp := path ++ ".tmp"
  let fs1 := write_file temp fs
  if replace_raises then (fs1, false)
  else (os_replace temp path fs1, true)

/-! ### compressVids.py — settings (lines 22-25) -/

def MIN_SIZE_MB_vid : ℚ := 5
def MIN_COMPRESSION_RATIO : ℚ := 1 / 2
def SAMPLE_SECONDS : ℚ := 20

def SUPPORTED_FORMATS_vids : List String :=
  [".mp4", ".mkv", ".mov", ".avi", ".flv", ".wmv"]

/-! ### Batch enumeration (compressPics.py lines 224-227, compressVids.py
lines 238-241)

`fname.lower().endswith(SUPPORTED_FORMATS)` decides eligibility.  Python's
`str.lower` maps every character; `str.endswith` with a tuple is true when
any member is a suffix. -/

/-- Python `str.lower()`. -/
def py_lower (s : String) : String := ⟨s.data.map Char.toLower⟩

/-- Python `str.endswith(suffix)` for a single suffix. -/
def py_endswith (s suffix : String) : Bool := suffix.data.isSuffixOf s.data

/-- Eligibility test of the image `compress_directory` (line 226). -/
def eligible_pic (fname : String) : Bool :=
  SUPPORTED_FORMATS_pics.any (py_endswith (py_lower fname))

/-- Eligibility test of the video `compress_directory` (line 240). -/
def eligible_vid (fname : String) : Bool :=
  SUPPORTED_FORMATS_vids.any (py_endswith (py_lower fname))

/-! ### compressVids.py — per-file pipeline -/

/-- `prepare_paths` (lines 47-52).  The source path is `stem ++ ext`
where `ext` is its `os.path.splitext` extension (the part from the last
dot); the temporary output is `stem ++ ".tmp.mkv"` and the final output
`stem ++ ".mkv"` (directory handling elided: all three live in the same
directory). -/
def prepare_paths (stem : String) : String × String :=
  (stem ++ ".tmp.mkv", stem ++ ".mkv")

/-- `accept_threshold_mb = size_mb * MIN_COMPRESSION_RATIO` (line 67). -/
def accept_threshold_mb (size_mb : ℚ) : ℚ := size_mb * MIN_COMPRESSION_RATIO

/-- `hms_to_seconds` (lines 109-114), modelled on the parsed
`HH`/`MM`/`SS.xx` fields of a well-formed `time=` match. -/
def hms_to_seconds (hh mm : ℕ) (ss : ℚ) : ℚ := hh * 3600 + mm * 60 + ss

/-- The choice of `encoded_seconds` in the sampling block (lines 131-135):
the parsed ffmpeg `time=` value when one was captured, else `0.0`; then a
fallback to the wall-clock `elapsed` whenever the chosen value is `≤ 0`
(so also when a progress line parsed to zero seconds). -/
def encoded_seconds_choice (parsed : Option ℚ) (elapsed : ℚ) : ℚ :=
  let e := match parsed with
    | some t => t
    | none => 0
  if e ≤ 0 then elapsed else e

/-- `kbps` (line 137): average bitrate in kilobits per second, `0.0` when
no positive encoded time is available. -/
def avg_kbps (bytes_written : ℕ) (encoded_seconds : ℚ) : ℚ :=
  if 0 < encoded_seconds then (bytes_written : ℚ) * 8 / encoded_seconds / 1000 else 0

/-- `est_final_bytes = (kbps * 1000.0 / 8.0) * duration` (line 138). -/
def est_final_bytes (bytes_written : ℕ) (encoded_seconds duration : ℚ) : ℚ :=
  avg_kbps bytes_written encoded_seconds * 1000 / 8 * duration

/-- `est_final_mb` (line 139). -/
def est_final_mb (bytes_written : ℕ) (encoded_seconds duration : ℚ) : ℚ :=
  est_final_bytes bytes_written encoded_seconds duration / (1024 * 1024)

/-- The decision taken inside the sampling block (lines 144-173) once the
estimate is computed: when `est_final_mb >= accept_threshold_mb`, the
encoder is interrupted, the partial `temp` output is removed and the task
returns early (flag `true`); otherwise nothing changes and the encode
continues (flag `false`). -/
def monitor_sample (temp : String) (est thr : ℚ) (fs : String → Bool) :
    (String → Bool) × Bool :=
  if thr ≤ est then (os_remove temp fs, true) else (fs, false)

/-- The completion decision of `compress_video` (lines 211-225): when the
finished output is strictly smaller than the acceptance threshold, run
`os.replace(temp_path, final_path)` and then `os.remove(path)` (keep flag
`true`); otherwise remove the temporary output and keep the original
(flag `false`). -/
def video_finalize (path temp final : String) (final_size_mb thr : ℚ)
    (fs : String → Bool) : (String → Bool) × Bool :=
  if final_size_mb < thr then
    (os_remove path (os_replace temp final fs), true)
  else
    (os_remove temp fs, false)

/-! ### compressVids.py — the sampling loop (lines 116-179)

One iteration per `poll`.  A `Tick` records what the orchestrating loop
observes at that iteration: whether `proc.poll()` reported an exit, the
wall-clock `elapsed` seconds, the size of the temporary output if it
exists (`os.path.getsize(temp_path)`), and the last parsed `time=` value
if any.  The loop returns whether it aborted early and how many times the
sampling block (guarded by `not sampled and elapsed >= SAMPLE_SECONDS`)
was entered. -/

structure Tick where
  exited : Bool
  elapsed : ℚ
  temp_bytes : Option ℕ
  parsed_time : Option ℚ

/-- The polling loop of `compress_video`: first the `proc.poll()` exit
check (line 122), then the one-shot sampling block (lines 125-178).  The
returned pair is (aborted-early flag, number of times the sampling block
ran). -/
def monitor_loop (duration thr : ℚ) : List Tick → Bool → Bool × ℕ
  | [], _ => (false, 0)
  | t :: rest, sampled =>
    if t.exited then (false, 0)
    else if sampled = false ∧ SAMPLE_SECONDS ≤ t.elapsed then
      match t.temp_bytes with
      | some b =>
        if thr ≤ est_final_mb b (encoded_seconds_choice t.parsed_time t.elapsed) duration then
          (true, 1)
        else
          let r := monitor_loop duration thr rest true
          (r.1, r.2 + 1)
      | none =>
        let r := monitor_loop duration thr rest true
        (r.1, r.2 + 1)
    else monitor_loop duration thr rest sampled

/-- `true` when the encoder exits (or the trace ends) strictly before the
loop ever reaches a poll with `elapsed >= SAMPLE_SECONDS`. -/
def exits_before_sample : List Tick → Bool
  | [] => true
  | t :: rest =>
    if t.exited then true
    else if SAMPLE_SECONDS ≤ t.elapsed then false
    else exits_before_sample rest

/-! ## Theorems -/

/-- C1: the replacement step is NOT all-or-nothing on the code as written.
For a source file whose extension is already `.mkv`, `prepare_paths` makes
`final_path` equal to the source path, so the accepted-candidate branch of
`compress_video` first installs the new file over the original with
`os.replace` and then deletes that very file with `os.remove(path)`:
afterwards neither the original content nor the replacement exists — zero
files where one existed.  Evaluated here at source `a.mkv` (50 MB
original, 20 MB finished encode, so the candidate is accepted). -/
theorem C1_mkv_accept_leaves_zero_files :
    prepare_paths "a" = ("a.tmp.mkv", "a.mkv") ∧
    (video_finalize "a.mkv" "a.tmp.mkv" "a.mkv" 20 (accept_threshold_mb 50)
        (fun p => p == "a.mkv" || p == "a.tmp.mkv")).2 = true ∧
    (video_finalize "a.mkv" "a.tmp.mkv" "a.mkv" 20 (accept_threshold_mb 50)
        (fun p => p == "a.mkv" || p == "a.tmp.mkv")).1 "a.mkv" = false ∧
    (video_finalize "a.mkv" "a.tmp.mkv" "a.mkv" 20 (accept_threshold_mb 50)
        (fun p => p == "a.mkv" || p == "a.tmp.mkv")).1 "a.tmp.mkv" = false := by
  refine ⟨rfl, ?_, ?_, ?_⟩ <;>
    norm_num [video_finalize, accept_threshold_mb, MIN_COMPRESSION_RATIO,
      os_remove, os_replace]

/-- C6: the image pipeline does NOT remove its temporary file on every
non-success path.  When `os.replace(temp_path, path)` raises after the
temporary has been written, control reaches the `except` handler of
`compress_image`, which only prints: the stale `b.jpg.tmp` stays on disk
next to the untouched original (the success path, by contrast, leaves no
temporary).  The video pipeline's handler does remove its temporary. -/
theorem C6_image_temp_left_on_failure :
    ((compress_image_fs "b.jpg" true (fun p => p == "b.jpg")).2 = false ∧
      (compress_image_fs "b.jpg" true (fun p => p == "b.jpg")).1 "b.jpg.tmp" = true ∧
      (compress_image_fs "b.jpg" true (fun p => p == "b.jpg")).1 "b.jpg" = true) ∧
    (compress_image_fs "b.jpg" false (fun p => p == "b.jpg")).1 "b.jpg.tmp" = false := by
  refine ⟨⟨rfl, ?_, ?_⟩, ?_⟩ <;> decide

/-- C7: QualitySearch is idempotent on an already-compliant image.  Any
input whose size is at most its own per-task ceiling
`min(MAX_SIZE_MB, original * TARGET_RATIO)` necessarily lies under the
`MIN_SIZE_MB` floor (the ceiling is at most a quarter of the original),
so `compress_image` returns immediately at the skip check and the search
never runs. -/
theorem C7_compliant_image_skipped (x : ℚ) (hx : x ≤ target_mb x) :
    compress_image_skips x = true := by
  have h1 : x ≤ x * TARGET_RATIO := le_trans hx (min_le_right _ _)
  have h0 : x ≤ 0 := by
    rw [ TARGET_RATIO] at h1
    linarith
  simp only [compress_image_skips, MIN_SIZE_MB, decide_eq_true_eq]
  linarith

/-- C7 witness: a zero-byte file is within its ceiling and is skipped. -/
theorem C7_witness : compress_image_skips 0 = true :=
  C7_compliant_image_skipped 0 (by norm_num [target_mb, MAX_SIZE_MB, TARGET_RATIO])

/-- C9 counterexample: the claim says the wall-clock fallback is used only
when no progress-time signal is available, but when a progress line
parses to `00:00:00.00` (parsed value `0`), the code's `encoded_seconds`
falls back to the wall-clock `elapsed` (here `20`) even though a signal
was available — `20` is not the parsed `0`. -/
theorem C9_counterexample_zero_parse :
    encoded_seconds_choice (some 0) 20 = 20 ∧ (20 : ℚ) ≠ 0 := by
  norm_num [encoded_seconds_choice]

/-- C9 (amended): with `encoded_seconds` chosen as the parsed progress
time when available and positive, and wall-clock elapsed time otherwise,
the projected final size equals `(bytes_written / encoded_seconds) *
total_duration` exactly — the round trip through kilobits per second
(`kbps = bytes*8/enc/1000`, then `kbps*1000/8*duration`) cancels under
exact arithmetic. -/
theorem C9_projection_formula (b : ℕ) (parsed : Option ℚ) (elapsed duration : ℚ)
    (h : 0 < encoded_seconds_choice parsed elapsed) :
    est_final_bytes b (encoded_seconds_choice parsed elapsed) duration
      = (b : ℚ) / encoded_seconds_choice parsed elapsed * duration := by
  have hne : encoded_seconds_choice parsed elapsed ≠ 0 := ne_of_gt h
  rw [est_final_bytes, avg_kbps, if_pos h]
  field_simp
  ring

/-- C9 witness: 8000 bytes written at parsed encoded time 2 s, projected
over 10 s of media. -/
theorem C9_witness :
    est_final_bytes 8000 (encoded_seconds_choice (some 2) 99) 10
      = (8000 : ℚ) / encoded_seconds_choice (some 2) 99 * 10 :=
  C9_projection_formula 8000 (some 2) 99 10 (by norm_num [encoded_seconds_choice])

/-- C3 counterexample: the claim's abort condition is
`estimated > original * ratio` (strict), but the code aborts on
`est_final_mb >= accept_threshold_mb`.  At an estimate exactly equal to
the threshold (1 MB estimate against a 2 MB original at ratio 0.5) the
code aborts although the claim's strict condition is false. -/
theorem C3_counterexample_equality :
    (monitor_sample "v.tmp.mkv"
        (est_final_mb 1048576 (encoded_seconds_choice (some 1) 0) 1)
        (accept_threshold_mb 2) (fun _ => true)).2 = true ∧
    ¬ (accept_threshold_mb 2
        < est_final_mb 1048576 (encoded_seconds_choice (some 1) 0) 1) := by
  norm_num [monitor_sample, est_final_mb, est_final_bytes, avg_kbps,
    encoded_seconds_choice, accept_threshold_mb, MIN_COMPRESSION_RATIO]

/-- C3 (amended): the monitor aborts, deletes the partial temporary
output and leaves the original untouched if and only if the sampled
estimate satisfies `est_final_mb ≥ original_size * acceptance_ratio`
(non-strict); otherwise the state is unchanged and the encode continues. -/
theorem C3_abort_iff_threshold (path temp : String) (b : ℕ) (parsed : Option ℚ)
    (elapsed duration size_mb : ℚ) (fs : String → Bool) (hpt : path ≠ temp) :
    ((monitor_sample temp
        (est_final_mb b (encoded_seconds_choice parsed elapsed) duration)
        (accept_threshold_mb size_mb) fs).2 = true
      ↔ accept_threshold_mb size_mb
          ≤ est_final_mb b (encoded_seconds_choice parsed elapsed) duration) ∧
    ((monitor_sample temp
        (est_final_mb b (encoded_seconds_choice parsed elapsed) duration)
        (accept_threshold_mb size_mb) fs).2 = true →
      (monitor_sample temp
        (est_final_mb b (encoded_seconds_choice parsed elapsed) duration)
        (accept_threshold_mb size_mb) fs).1 temp = false ∧
      (monitor_sample temp
        (est_final_mb b (encoded_seconds_choice parsed elapsed) duration)
        (accept_threshold_mb size_mb) fs).1 path = fs path) ∧
    ((monitor_sample temp
        (est_final_mb b (encoded_seconds_choice parsed elapsed) duration)
        (accept_threshold_mb size_mb) fs).2 = false →
      (monitor_sample temp
        (est_final_mb b (encoded_seconds_choice parsed elapsed) duration)
        (accept_threshold_mb size_mb) fs).1 = fs) := by
  by_cases h : accept_threshold_mb size_mb
      ≤ est_final_mb b (encoded_seconds_choice parsed elapsed) duration
  · refine ⟨by simp [monitor_sample, h], fun _ => ?_, ?_⟩
    · simp [monitor_sample, h, os_remove, hpt]
    · simp [monitor_sample, h]
  · refine ⟨by simp [monitor_sample, h], ?_, fun _ => ?_⟩
    · simp [monitor_sample, h]
    · simp [monitor_sample, h]

/-- C3 witness: a 2 MB sample at encoded time 2 s over 30 s of media
projects to 30 MB, beyond the 25 MB threshold of a 50 MB original. -/
theorem C3_witness :
    ((monitor_sample "v.tmp.mkv"
        (est_final_mb 2097152 (encoded_seconds_choice (some 2) 0) 30)
        (accept_threshold_mb 50) (fun _ => true)).2 = true
      ↔ accept_threshold_mb 50
          ≤ est_final_mb 2097152 (encoded_seconds_choice (some 2) 0) 30) ∧
    ((monitor_sample "v.tmp.mkv"
        (est_final_mb 2097152 (encoded_seconds_choice (some 2) 0) 30)
        (accept_threshold_mb 50) (fun _ => true)).2 = true →
      (monitor_sample "v.tmp.mkv"
        (est_final_mb 2097152 (encoded_seconds_choice (some 2) 0) 30)
        (accept_threshold_mb 50) (fun _ => true)).1 ("v.tmp.mkv") = false ∧
      (monitor_sample "v.tmp.mkv"
        (est_final_mb 2097152 (encoded_seconds_choice (some 2) 0) 30)
        (accept_threshold_mb 50) (fun _ => true)).1 "v.mp4" = (fun _ => true) "v.mp4") ∧
    ((monitor_sample "v.tmp.mkv"
        (est_final_mb 2097152 (encoded_seconds_choice (some 2) 0) 30)
        (accept_threshold_mb 50) (fun _ => true)).2 = false →
      (monitor_sample "v.tmp.mkv"
        (est_final_mb 2097152 (encoded_seconds_choice (some 2) 0) 30)
        (accept_threshold_mb 50) (fun _ => true)).1 = (fun _ => true)) := by
  have h := C3_abort_iff_threshold "v.mp4" ("v.tmp.mkv") 2097152
    (some 2) 0 30 50 (fun _ => true) (by decide)
  exact ⟨h.1, h.2.1, h.2.2⟩

/-- C4 counterexample: the claim's "kept (replacing the original)" half
fails on a source that already ends in `.mkv`.  For `c.mkv` (60 MB
original, threshold 30 MB) a 25 MB finished encode satisfies the strict
acceptance test and the accept branch runs, yet the compressed output is
NOT kept: `prepare_paths` aliases `final_path` to the source path, so
after `os.replace` installs the output, `os.remove(path)` deletes that
same file — neither the output nor the original persists although
`final_size < original * 0.5` holds. -/
theorem C4_counterexample_mkv_source :
    prepare_paths "c" = ("c.tmp.mkv", "c.mkv") ∧
    (25 : ℚ) < 60 * MIN_COMPRESSION_RATIO ∧
    (video_finalize "c.mkv" "c.tmp.mkv" "c.mkv" 25 (accept_threshold_mb 60)
        (fun p => p == "c.mkv" || p == "c.tmp.mkv")).2 = true ∧
    (video_finalize "c.mkv" "c.tmp.mkv" "c.mkv" 25 (accept_threshold_mb 60)
        (fun p => p == "c.mkv" || p == "c.tmp.mkv")).1 "c.mkv" = false ∧
    (video_finalize "c.mkv" "c.tmp.mkv" "c.mkv" 25 (accept_threshold_mb 60)
        (fun p => p == "c.mkv" || p == "c.tmp.mkv")).1 "c.tmp.mkv" = false := by
  refine ⟨rfl, by norm_num [ MIN_COMPRESSION_RATIO], ?_, ?_, ?_⟩ <;>
    norm_num [video_finalize, accept_threshold_mb, MIN_COMPRESSION_RATIO,
      os_remove, os_replace]

/-- C4 (amended): for every completed video encode whose final output
path differs from the source path (every non-`.mkv` source), the
compressed output is kept — installed at the final path, original and
temporary removed — if and only if its final size is strictly below
`original * 0.5`; at or above the threshold the temporary output is
deleted and the original kept untouched.  For `.mkv` sources the same
threshold decision fires but the installed output is immediately deleted
(see the counterexample; the defect is recorded at C1). -/
theorem C4_video_accept_policy (path temp final : String) (size_mb final_size_mb : ℚ)
    (fs : String → Bool) (hpt : path ≠ temp) (htf : temp ≠ final) (hfp : final ≠ path)
    (htemp : fs temp = true) :
    ((video_finalize path temp final final_size_mb (accept_threshold_mb size_mb) fs).2 = true
      ↔ final_size_mb < size_mb * MIN_COMPRESSION_RATIO) ∧
    ((video_finalize path temp final final_size_mb (accept_threshold_mb size_mb) fs).2 = true →
      (video_finalize path temp final final_size_mb (accept_threshold_mb size_mb) fs).1 final = true ∧
      (video_finalize path temp final final_size_mb (accept_threshold_mb size_mb) fs).1 path = false ∧
      (video_finalize path temp final final_size_mb (accept_threshold_mb size_mb) fs).1 temp = false) ∧
    ((video_finalize path temp final final_size_mb (accept_threshold_mb size_mb) fs).2 = false →
      (video_finalize path temp final final_size_mb (accept_threshold_mb size_mb) fs).1 temp = false ∧
      (video_finalize path temp final final_size_mb (accept_threshold_mb size_mb) fs).1 path = fs path) := by
  by_cases h : final_size_mb < size_mb * MIN_COMPRESSION_RATIO
  · refine ⟨by simp [video_finalize, accept_threshold_mb, h], fun _ => ?_,
      by simp [video_finalize, accept_threshold_mb, h]⟩
    refine ⟨?_, ?_, ?_⟩ <;>
      simp [video_finalize, accept_threshold_mb, h, os_remove, os_replace,
        hfp, hpt, htf, Ne.symm htf, Ne.symm hfp, Ne.symm hpt, htemp]
  · refine ⟨by simp [video_finalize, accept_threshold_mb, h],
      by simp [video_finalize, accept_threshold_mb, h], fun _ => ?_⟩
    constructor <;> simp [video_finalize, accept_threshold_mb, h, os_remove, hpt]

/-- C4 witness: a 20 MB result against a 50 MB original (`b.mp4`,
threshold 25 MB) is accepted, installed at `b.mkv`, and both the source
and the temporary are gone. -/
theorem C4_witness :
    ((video_finalize "b.mp4" "b.tmp.mkv" "b.mkv" 20 (accept_threshold_mb 50)
        (fun p => p == "b.mp4" || p == "b.tmp.mkv")).2 = true
      ↔ (20 : ℚ) < 50 * MIN_COMPRESSION_RATIO) ∧
    ((video_finalize "b.mp4" "b.tmp.mkv" "b.mkv" 20 (accept_threshold_mb 50)
        (fun p => p == "b.mp4" || p == "b.tmp.mkv")).2 = true →
      (video_finalize "b.mp4" "b.tmp.mkv" "b.mkv" 20 (accept_threshold_mb 50)
        (fun p => p == "b.mp4" || p == "b.tmp.mkv")).1 "b.mkv" = true ∧
      (video_finalize "b.mp4" "b.tmp.mkv" "b.mkv" 20 (accept_threshold_mb 50)
        (fun p => p == "b.mp4" || p == "b.tmp.mkv")).1 "b.mp4" = false ∧
      (video_finalize "b.mp4" "b.tmp.mkv" "b.mkv" 20 (accept_threshold_mb 50)
        (fun p => p == "b.mp4" || p == "b.tmp.mkv")).1 "b.tmp.mkv" = false) ∧
    ((video_finalize "b.mp4" "b.tmp.mkv" "b.mkv" 20 (accept_threshold_mb 50)
        (fun p => p == "b.mp4" || p == "b.tmp.mkv")).2 = false →
      (video_finalize "b.mp4" "b.tmp.mkv" "b.mkv" 20 (accept_threshold_mb 50)
        (fun p => p == "b.mp4" || p == "b.tmp.mkv")).1 "b.tmp.mkv" = false ∧
      (video_finalize "b.mp4" "b.tmp.mkv" "b.mkv" 20 (accept_threshold_mb 50)
        (fun p => p == "b.mp4" || p == "b.tmp.mkv")).1 "b.mp4"
        = (fun p => p == "b.mp4" || p == "b.tmp.mkv") "b.mp4") :=
  C4_video_accept_policy "b.mp4" "b.tmp.mkv" "b.mkv" 50 20
    (fun p => p == "b.mp4" || p == "b.tmp.mkv")
    (by decide) (by decide) (by decide) (by decide)

/-- Once `sampled` is set, the sampling block is unreachable: the loop
just drains the remaining polls without sampling or aborting. -/
theorem monitor_loop_sampled (duration thr : ℚ) (trace : List Tick) :
    monitor_loop duration thr trace true = (false, 0) := by
  induction trace with
  | nil => rfl
  | cons t rest ih => simp [monitor_loop, ih]

/-- C10: the early-abort projection is evaluated at most once per task —
the sampling block runs at most one time, an early abort can only come
out of that single run, and if the encoder exits (or the loop ends)
before any poll reaches `SAMPLE_SECONDS` of wall-clock time the block
never runs and no abort happens. -/
theorem C10_sample_once (duration thr : ℚ) (trace : List Tick) :
    (monitor_loop duration thr trace false).2 ≤ 1 ∧
    ((monitor_loop duration thr trace false).1 = true →
      (monitor_loop duration thr trace false).2 = 1) ∧
    (exits_before_sample trace = true →
      monitor_loop duration thr trace false = (false, 0)) := by
  induction trace with
  | nil => simp [monitor_loop, exits_before_sample]
  | cons t rest ih =>
    by_cases hex : t.exited
    · simp [monitor_loop, hex]
    · by_cases hs : SAMPLE_SECONDS ≤ t.elapsed
      · cases hb : t.temp_bytes with
        | some b =>
          by_cases habort : thr ≤ est_final_mb b
              (encoded_seconds_choice t.parsed_time t.elapsed) duration
          · simp [monitor_loop, exits_before_sample, hex, hs, hb, habort]
          · simp [monitor_loop, exits_before_sample, hex, hs, hb, habort,
              monitor_loop_sampled]
        | none =>
          simp [monitor_loop, exits_before_sample, hex, hs, hb,
            monitor_loop_sampled]
      · simpa [monitor_loop, exits_before_sample, hex, hs] using ih

/-- C10 witness: a trace whose encoder exits at 10 s, before the 20 s
sampling point — the block never runs and there is no abort. -/
theorem C10_witness :
    monitor_loop 60 25 [⟨false, 5, none, none⟩, ⟨true, 10, some 1, none⟩] false
      = (false, 0) :=
  (C10_sample_once 60 25 [⟨false, 5, none, none⟩, ⟨true, 10, some 1, none⟩]).2.2
    (by norm_num [exits_before_sample, SAMPLE_SECONDS])

/-- Whatever `some` result the quality search returns was measured to fit
under the target when it was recorded as best. -/
theorem qsearchLoop_some_le (f : ℕ → ℕ) (target : ℚ) (low high : ℕ)
    (best : Option (ℕ × ℕ)) :
    (∀ d q, best = some (d, q) → get_size_mb d ≤ target) →
    ∀ d q, qsearchLoop f target low high best = some (d, q) → get_size_mb d ≤ target := by
  induction low, high, best using qsearchLoop.induct f target with
  | case1 low high best hlh qv dv hfit ih =>
    intro _ d q hres
    have hfit' : get_size_mb (f ((low + high) / 2)) ≤ target := hfit
    rw [qsearchLoop] at hres
    simp only [if_pos hlh, if_pos hfit'] at hres
    refine ih ?_ d q hres
    intro d' q' h
    injection h with h
    injection h with h1 h2
    subst h1
    exact hfit'
  | case2 low high best hlh qv dv hnofit hq0 =>
    intro hbest d q hres
    have hnofit' : ¬ get_size_mb (f ((low + high) / 2)) ≤ target := hnofit
    have hq0' : (low + high) / 2 = 0 := hq0
    rw [qsearchLoop] at hres
    simp only [if_pos hlh, if_neg hnofit', if_pos hq0'] at hres
    exact hbest d q hres
  | case3 low high best hlh qv dv hnofit hq0 ih =>
    intro hbest d q hres
    have hnofit' : ¬ get_size_mb (f ((low + high) / 2)) ≤ target := hnofit
    have hq0' : ¬ (low + high) / 2 = 0 := hq0
    rw [qsearchLoop] at hres
    simp only [if_pos hlh, if_neg hnofit', if_neg hq0'] at hres
    exact ih hbest d q hres
  | case4 low high best hnlh =>
    intro hbest d q hres
    rw [qsearchLoop] at hres
    simp only [if_neg hnlh] at hres
    exact hbest d q hres

/-- Invariant proof for the binary search under the monotonicity
assumption: started anywhere consistent with the greatest feasible
quality `qmax`, the loop ends with exactly `some (f qmax, qmax)`. -/
theorem qsearchLoop_finds_max (f : ℕ → ℕ) (target : ℚ)
    (hmono : ∀ a b : ℕ, a ≤ b → f a ≤ f b)
    (qmax : ℕ) (hq1 : 30 ≤ qmax) (hq2 : qmax ≤ 95)
    (hfit : get_size_mb (f qmax) ≤ target)
    (hmax : ∀ r, qmax < r → r ≤ 95 → ¬ get_size_mb (f r) ≤ target)
    (low high : ℕ) (best : Option (ℕ × ℕ)) :
    30 ≤ low → high ≤ 95 → low ≤ qmax + 1 →
    (low = qmax + 1 → best = some (f qmax, qmax)) →
    (low ≤ qmax → qmax ≤ high) →
    qsearchLoop f target low high best = some (f qmax, qmax) := by
  have hP : ∀ a b : ℕ, a ≤ b → get_size_mb (f b) ≤ target →
      get_size_mb (f a) ≤ target := by
    intro a b hab hb
    refine le_trans ?_ hb
    unfold get_size_mb
    have hfab : ((f a : ℚ)) ≤ (f b : ℚ) := by exact_mod_cast hmono a b hab
    have hc : (0 : ℚ) < 1024 * 1024 := by norm_num
    exact (div_le_div_iff_of_pos_right hc).mpr hfab
  induction low, high, best using qsearchLoop.induct f target with
  | case1 low high best hlh qv dv hfit2 ih =>
    intro h30 h95 hle hbesteq hrange
    have hfitq : get_size_mb (f ((low + high) / 2)) ≤ target := hfit2
    rw [qsearchLoop]
    simp only [if_pos hlh, if_pos hfitq]
    have hqlow : low ≤ (low + high) / 2 := by omega
    have hqhigh : (low + high) / 2 ≤ high := by omega
    have hqle : (low + high) / 2 ≤ qmax := by
      by_contra hgt
      exact hmax _ (by omega) (by omega) hfitq
    apply ih
    · omega
    · exact h95
    · omega
    · intro h
      have heq : qv = qmax := by
        have hq : (low + high) / 2 = qmax := by omega
        exact hq
      exact congrArg (fun n => some (f n, n)) heq
    · intro _
      exact hrange (by omega)
  | case2 low high best hlh qv dv hnofit hq0 =>
    intro h30 h95 hle hbesteq hrange
    have hq0' : (low + high) / 2 = 0 := hq0
    exfalso
    omega
  | case3 low high best hlh qv dv hnofit hq0 ih =>
    intro h30 h95 hle hbesteq hrange
    have hnofit' : ¬ get_size_mb (f ((low + high) / 2)) ≤ target := hnofit
    have hq0' : ¬ (low + high) / 2 = 0 := hq0
    rw [qsearchLoop]
    simp only [if_pos hlh, if_neg hnofit', if_neg hq0']
    have hqgt : qmax < (low + high) / 2 := by
      by_contra hle2
      exact hnofit' (hP _ qmax (by omega) hfit)
    apply ih
    · exact h30
    · omega
    · exact hle
    · exact hbesteq
    · intro h
      omega
  | case4 low high best hnlh =>
    intro h30 h95 hle hbesteq hrange
    rw [qsearchLoop]
    simp only [if_neg hnlh]
    have hloweq : low = qmax + 1 := by
      rcases Nat.lt_or_ge qmax low with h | h
      · omega
      · exfalso
        have := hrange h
        omega
    exact hbesteq hloweq

/-- When no quality in the 30..95 window fits under the target, the loop
returns its accumulator unchanged (so the search starting from `none`
signals failure). -/
theorem qsearchLoop_none (f : ℕ → ℕ) (target : ℚ)
    (hnone : ∀ r, 30 ≤ r → r ≤ 95 → ¬ get_size_mb (f r) ≤ target)
    (low high : ℕ) (best : Option (ℕ × ℕ)) :
    30 ≤ low → high ≤ 95 → qsearchLoop f target low high best = best := by
  induction low, high, best using qsearchLoop.induct f target with
  | case1 low high best hlh qv dv hfitq ih =>
    intro h30 h95
    have hfitq' : get_size_mb (f ((low + high) / 2)) ≤ target := hfitq
    exfalso
    exact hnone ((low + high) / 2) (by omega) (by omega) hfitq'
  | case2 low high best hlh qv dv hnofit hq0 =>
    intro h30 h95
    have hq0' : (low + high) / 2 = 0 := hq0
    exfalso
    omega
  | case3 low high best hlh qv dv hnofit hq0 ih =>
    intro h30 h95
    have hnofit' : ¬ get_size_mb (f ((low + high) / 2)) ≤ target := hnofit
    have hq0' : ¬ (low + high) / 2 = 0 := hq0
    rw [qsearchLoop]
    simp only [if_pos hlh, if_neg hnofit', if_neg hq0']
    exact ih h30 (by omega)
  | case4 low high best hnlh =>
    intro h30 h95
    rw [qsearchLoop]
    simp only [if_neg hnlh]

/-- A non-monotone encoded-size profile: qualities up to 62 and quality 95
produce tiny files, everything in between is far too large. -/
def f0 : ℕ → ℕ := fun q => if q ≤ 62 then 0 else if q = 95 then 1 else 2000000

/-- C2 counterexample: the claim promises the bytes of the highest
feasible quality for every image, but on the (non-monotone) profile `f0`
with a 1 MB ceiling the search returns the bytes encoded at quality 62
even though quality 95 also fits the ceiling and produces different
bytes: the probe sequence 62, 79, 70, 66, 64, 63 never reaches 95. -/
theorem C2_counterexample :
    searchPhase f0 1 = some (0, 62) ∧
    get_size_mb (f0 95) ≤ 1 ∧ f0 95 ≠ f0 62 := by
  refine ⟨?_, by norm_num [f0, get_size_mb], by norm_num [f0]⟩
  rw [searchPhase]
  rw [qsearchLoop]; norm_num [f0, get_size_mb]
  rw [qsearchLoop]; norm_num [f0, get_size_mb]
  rw [qsearchLoop]; norm_num [f0, get_size_mb]
  rw [qsearchLoop]; norm_num [f0, get_size_mb]
  rw [qsearchLoop]; norm_num [f0, get_size_mb]
  rw [qsearchLoop]; norm_num [f0, get_size_mb]
  rw [qsearchLoop]; norm_num [f0, get_size_mb]

/-- C2 (amended): under the search's monotonicity assumption (encoded
size nondecreasing in quality), when some quality in 30..95 fits under
the ceiling the binary search returns the encoded bytes of the highest
such quality, and when no quality in the range fits it signals failure
(`best_bytes` stays unset), falling over to the downscaler. -/
theorem C2_binary_search (f : ℕ → ℕ) (target : ℚ)
    (hmono : ∀ a b : ℕ, a ≤ b → f a ≤ f b) :
    (∀ qmax, 30 ≤ qmax → qmax ≤ 95 → get_size_mb (f qmax) ≤ target →
      (∀ r, qmax < r → r ≤ 95 → ¬ get_size_mb (f r) ≤ target) →
      searchPhase f target = some (f qmax, qmax)) ∧
    ((∀ r, 30 ≤ r → r ≤ 95 → ¬ get_size_mb (f r) ≤ target) →
      searchPhase f target = none) := by
  constructor
  · intro qmax h1 h2 h3 h4
    exact qsearchLoop_finds_max f target hmono qmax h1 h2 h3 h4 30 95 none
      le_rfl le_rfl (by omega) (fun h => absurd h (by omega)) (fun _ => h2)
  · intro hnone
    exact qsearchLoop_none f target hnone 30 95 none le_rfl le_rfl

/-- C2 witness: on a constant-zero-size encoder with a 1 MB ceiling, the
highest feasible quality is 95 and the search returns it. -/
theorem C2_witness : searchPhase (fun _ => 0) 1 = some (0, 95) :=
  (C2_binary_search (fun _ => 0) 1 (fun _ _ _ => le_rfl)).1 95 (by norm_num) le_rfl
    (by norm_num [get_size_mb]) (fun r hr hr' => absurd (hr.trans_le hr') (lt_irrefl 95))

/-- Every exit of the downscaling loop is covered by the floor conditions
or fits the target. -/
theorem downscaleLoop_spec (g : ℕ → ℕ → ℕ → ℕ) (q width height : ℕ) (target : ℚ)
    (s : ℚ) (cw ch : ℕ) :
    get_size_mb (downscaleLoop g q width height target s cw ch).bytes ≤ target ∨
    (downscaleLoop g q width height target s cw ch).stopW < 200 ∨
    (downscaleLoop g q width height target s cw ch).stopH < 200 ∨
    ((downscaleLoop g q width height target s cw ch).forced = true ∧
      ((downscaleLoop g q width height target s cw ch).stopW < 2 ∨
        (downscaleLoop g q width height target s cw ch).stopH < 2)) := by
  induction s, cw, ch using downscaleLoop.induct g q width height target with
  | case1 s cw ch new_w new_h hfloor =>
    have hfloor' : max 1 (truncQ ((width : ℚ) * s)).toNat < 2 ∨
        max 1 (truncQ ((height : ℚ) * s)).toNat < 2 := hfloor
    rw [downscaleLoop]
    simp only [if_pos hfloor']
    exact Or.inr (Or.inr (Or.inr ⟨trivial, hfloor'⟩))
  | case2 s cw ch new_w new_h hnofloor data hcond =>
    have hnofloor' : ¬ (max 1 (truncQ ((width : ℚ) * s)).toNat < 2 ∨
        max 1 (truncQ ((height : ℚ) * s)).toNat < 2) := hnofloor
    have hcond' : get_size_mb (g q (max 1 (truncQ ((width : ℚ) * s)).toNat)
          (max 1 (truncQ ((height : ℚ) * s)).toNat)) ≤ target ∨
        max 1 (truncQ ((width : ℚ) * s)).toNat < 200 ∨
        max 1 (truncQ ((height : ℚ) * s)).toNat < 200 := hcond
    rw [downscaleLoop]
    simp only [if_neg hnofloor', if_pos hcond']
    rcases hcond' with h | h | h
    · exact Or.inl h
    · exact Or.inr (Or.inl h)
    · exact Or.inr (Or.inr (Or.inl h))
  | case3 s cw ch new_w new_h hnofloor data hncond ih =>
    have hnofloor' : ¬ (max 1 (truncQ ((width : ℚ) * s)).toNat < 2 ∨
        max 1 (truncQ ((height : ℚ) * s)).toNat < 2) := hnofloor
    have hncond' : ¬ (get_size_mb (g q (max 1 (truncQ ((width : ℚ) * s)).toNat)
          (max 1 (truncQ ((height : ℚ) * s)).toNat)) ≤ target ∨
        max 1 (truncQ ((width : ℚ) * s)).toNat < 200 ∨
        max 1 (truncQ ((height : ℚ) * s)).toNat < 200) := hncond
    rw [downscaleLoop]
    simp only [if_neg hnofloor', if_neg hncond']
    exact ih

/-- C5: `compress_to_target_size` always terminates with a result (it is
a total function: the downscaling loop's measure, the truncated scaled
width, strictly decreases while both dimensions stay at or above 200),
and the returned candidate either fits under the target or was produced
at the minimum-dimension floor — a stopping dimension below 200 px, or
the forced save triggered by a dimension below the absolute 2 px floor,
accepted even if over target. -/
theorem C5_terminating_best_effort (f : ℕ → ℕ) (g : ℕ → ℕ → ℕ → ℕ)
    (width height : ℕ) (target : ℚ) :
    get_size_mb (compress_to_target_size f g width height target).bytes ≤ target ∨
    (compress_to_target_size f g width height target).stopW < 200 ∨
    (compress_to_target_size f g width height target).stopH < 200 ∨
    ((compress_to_target_size f g width height target).forced = true ∧
      ((compress_to_target_size f g width height target).stopW < 2 ∨
        (compress_to_target_size f g width height target).stopH < 2)) := by
  cases hres : searchPhase f target with
  | none =>
    have heq : compress_to_target_size f g width height target
        = downscaleLoop g 85 width height target (19 / 20) width height := by
      unfold compress_to_target_size
      rw [hres]
    rw [heq]
    exact downscaleLoop_spec g 85 width height target (19 / 20) width height
  | some dq =>
    obtain ⟨d, q⟩ := dq
    have heq : compress_to_target_size f g width height target
        = ⟨d, width, height, false⟩ := by
      unfold compress_to_target_size
      rw [hres]
    rw [heq]
    left
    have hres' : qsearchLoop f target 30 95 none = some (d, q) := hres
    exact qsearchLoop_some_le f target 30 95 none
      (by intro d' q' h; cases h) d q hres'

/-- A suffix of `x ++ t` no longer than `t` is a suffix of `t`. -/
theorem suffix_of_append_of_len_le {α : Type} (a x t : List α) (h : a <:+ x ++ t)
    (hlen : a.length ≤ t.length) : a <:+ t := by
  obtain ⟨p, hp⟩ := h
  have hlenp : p.length + a.length = x.length + t.length := by
    simpa using congrArg List.length hp
  have hxp : x.length ≤ p.length := by omega
  have hx : p.take x.length = x := by
    have h1 : (p ++ a).take x.length = p.take x.length :=
      List.take_append_of_le_length hxp
    rw [hp, List.take_left] at h1
    exact h1.symm
  have hpdecomp : p = x ++ p.drop x.length := by
    conv_lhs => rw [← List.take_append_drop x.length p]
    rw [hx]
  refine ⟨p.drop x.length, ?_⟩
  have h2 : (x ++ p.drop x.length) ++ a = x ++ t := by rw [← hpdecomp]; exact hp
  rw [List.append_assoc] at h2
  exact List.append_cancel_left h2

/-- A suffix of `x ++ t` at least as long as `t` has `t` as a suffix. -/
theorem append_suffix_of_len_le {α : Type} (a x t : List α) (h : a <:+ x ++ t)
    (hlen : t.length ≤ a.length) : t <:+ a := by
  obtain ⟨p, hp⟩ := h
  have hlenp : p.length + a.length = x.length + t.length := by
    simpa using congrArg List.length hp
  have hpx : p.length ≤ x.length := by omega
  have hx : x.take p.length = p := by
    have h1 : (p ++ a).take p.length = p := List.take_left _ _
    rw [hp, List.take_append_of_le_length hpx] at h1
    exact h1
  set d := x.drop p.length with hd
  have hxdecomp : x = p ++ d := by
    conv_lhs => rw [← List.take_append_drop p.length x]
    rw [hx]
  refine ⟨d, ?_⟩
  have h2 : p ++ a = p ++ (d ++ t) := by
    rw [hp, hxdecomp, List.append_assoc]
  exact (List.append_cancel_left h2).symm

/-- No extension differing from `".tmp"` in its final four characters can
be a suffix of a name ending in `".tmp"`. -/
theorem isSuffixOf_append_tmp (e l : List Char)
    (h4 : e.length ≤ 4 → ¬ e <:+ ['.', 't', 'm', 'p'])
    (h5 : 4 ≤ e.length → ¬ ['.', 't', 'm', 'p'] <:+ e) :
    e.isSuffixOf (l ++ ['.', 't', 'm', 'p']) = false := by
  rw [Bool.eq_false_iff]
  intro hs
  rw [List.isSuffixOf_iff_suffix] at hs
  rcases le_total e.length 4 with hl | hl
  · exact h4 hl (suffix_of_append_of_len_le e l _ hs (by simpa using hl))
  · exact h5 hl (append_suffix_of_len_le e l _ hs (by simpa using hl))

/-- C8 counterexample: a stale video temporary `a.tmp.mkv` (the shape
`prepare_paths` writes) ends with the supported extension `.mkv`, so the
video batch enumeration selects it as an eligible input, contradicting
the claim that temporary-shaped paths are never selected. -/
theorem C8_counterexample : eligible_vid "a.tmp.mkv" = true := by decide

/-- C8 (amended): the image enumeration never selects a path of the image
temporary shape `<name>.tmp` — no supported image extension is a suffix
of a lowercased name ending in `".tmp"` — but the video enumeration does
select paths of the video temporary shape `<name>.tmp.mkv`, because they
end in the supported `.mkv` extension (see the counterexample). -/
theorem C8_image_tmp_never_selected (stem : String) :
    eligible_pic (stem ++ ".tmp") = false := by
  have hdata : (py_lower (stem ++ ".tmp")).data
      = stem.data.map Char.toLower ++ ['.', 't', 'm', 'p'] := by
    show ((stem ++ ".tmp").data.map Char.toLower) = _
    rw [String.data_append, List.map_append]
    rfl
  simp only [eligible_pic, SUPPORTED_FORMATS_pics, List.any_cons, List.any_nil,
    Bool.or_eq_false_iff, py_endswith, hdata]
  refine ⟨?_, ?_, ?_, ?_, ?_, ?_, trivial⟩ <;>
    exact isSuffixOf_append_tmp _ _ (by decide) (by decide)

end Compress
